import Mathlib

/-!
Verification of the `runtimeconfig` Go package: a thread-guarded key/value
configuration store (`RuntimeConfig`) holding a `data` map from keys to
string values and an `ignoreKeys` map used by the completeness check.

Go's `map[string]string` and `map[string]bool` are embedded as association
lists (`List (String × α)`): reading an absent key yields the zero value
(`""` resp. `false`), assignment overwrites the entry in place or appends a
new one, and `delete` removes every entry of the key.  Each exported Go
method of `src/runtimeconfig.go` becomes a pure Lean function on the store
value; `LoadValueFromEnv` takes the environment as an explicit lookup
function `String → String` (`os.Getenv` returns `""` for unset variables).

For the copy-independence property a second, heap-passing model is given at
the end of the definitions: map values live in numbered cells, a store holds
references to its two cells, and `CreateCopy` allocates fresh cells holding
element-wise copies, exactly as the Go code allocates fresh maps.
-/

/-- Go map read with zero value `d`: the value of the first entry whose key
is `k`, or `d` when no entry has key `k` (`m[k]` in Go). -/
def mapGet {α : Type} (d : α) : List (String × α) → String → α
  | [], _ => d
  | p :: rest, k => if p.1 = k then p.2 else mapGet d rest k

/-- Go map assignment `m[k] = v`: overwrite the entry of key `k` when
present, append a new entry otherwise. -/
def mapInsert {α : Type} : List (String × α) → String → α → List (String × α)
  | [], k, v => [(k, v)]
  | p :: rest, k, v => if p.1 = k then (k, v) :: rest else p :: mapInsert rest k v

/-- Go `delete(m, k)`: afterwards the map has no entry of key `k`. -/
def mapErase {α : Type} (m : List (String × α)) (k : String) : List (String × α) :=
  m.filter (fun p => decide (p.1 ≠ k))

/-- The keys of a map, in entry order (`for key := range m`). -/
def mapKeys {α : Type} (m : List (String × α)) : List String :=
  m.map Prod.fst

/-- The element-wise copy loop of `CreateCopy`:
`for key, value := range src { dst[key] = value }` starting from an empty
destination map.  Keys of the source are distinct, so each iteration appends. -/
def copyEntries {α : Type} : List (String × α) → List (String × α)
  | [] => []
  | p :: rest => (p.1, p.2) :: copyEntries rest

/-- `mKeyDefaultValue`: the package constant for the empty string. -/
def mKeyDefaultValue : String := ""

/-- The `RuntimeConfig` struct: `data` holds the values, `ignoreKeys` the
ignore set as a `map[string]bool` (the mutex is concurrency plumbing with no
sequential content and is not part of the state). -/
structure RuntimeConfig where
  data : List (String × String)
  ignoreKeys : List (String × Bool)
deriving DecidableEq

/-- `NewRuntimeConfig`: `data` maps each default key to `mKeyDefaultValue`,
`ignoreKeys` maps each ignore key to `true`. -/
def NewRuntimeConfig (defaultKeys ignoreKeys : List String) : RuntimeConfig :=
  { data := defaultKeys.foldl (fun m key => mapInsert m key mKeyDefaultValue) [],
    ignoreKeys := ignoreKeys.foldl (fun m key => mapInsert m key true) [] }

/-- `CreateCopy` (value level): both maps are copied element-wise. -/
def RuntimeConfig.CreateCopy (rconfig : RuntimeConfig) : RuntimeConfig :=
  { data := copyEntries rconfig.data, ignoreKeys := copyEntries rconfig.ignoreKeys }

/-- `ClearData`: `data` is replaced by a fresh empty map. -/
def RuntimeConfig.ClearData (rconfig : RuntimeConfig) : RuntimeConfig :=
  { rconfig with data := [] }

/-- `ClearIgnoreKeys`: `ignoreKeys` is replaced by a fresh empty map. -/
def RuntimeConfig.ClearIgnoreKeys (rconfig : RuntimeConfig) : RuntimeConfig :=
  { rconfig with ignoreKeys := [] }

/-- `Set`: `rconfig.data[key] = value`. -/
def RuntimeConfig.Set (rconfig : RuntimeConfig) (key value : String) : RuntimeConfig :=
  { rconfig with data := mapInsert rconfig.data key value }

/-- `Get`: `return rconfig.data[key]` (zero value `""` for an absent key). -/
def RuntimeConfig.Get (rconfig : RuntimeConfig) (key : String) : String :=
  mapGet "" rconfig.data key

/-- `Delete`: `delete(rconfig.data, key)`. -/
def RuntimeConfig.Delete (rconfig : RuntimeConfig) (key : String) : RuntimeConfig :=
  { rconfig with data := mapErase rconfig.data key }

/-- `Keys`: the keys of `data`, collected by ranging over the map. -/
def RuntimeConfig.Keys (rconfig : RuntimeConfig) : List String :=
  mapKeys rconfig.data

/-- `Size`: `len(rconfig.data)`. -/
def RuntimeConfig.Size (rconfig : RuntimeConfig) : Nat :=
  rconfig.data.length

/-- The body shared by `AddIgnoreKey` and each iteration of `AddIgnoreKeys`:
when `ignoreKeys[key]` is already `true` only a notice is printed, otherwise
`ignoreKeys[key] = true`. -/
def addIgnoreEntry (m : List (String × Bool)) (key : String) : List (String × Bool) :=
  if mapGet false m key then m else mapInsert m key true

/-- The body of `RemoveIgnoreKey`: when `ignoreKeys[key]` is not `true` only
a notice is printed, otherwise `delete(ignoreKeys, key)`. -/
def removeIgnoreEntry (m : List (String × Bool)) (key : String) : List (String × Bool) :=
  if mapGet false m key then mapErase m key else m

/-- `AddIgnoreKeys`: the variadic loop over `keys`. -/
def RuntimeConfig.AddIgnoreKeys (rconfig : RuntimeConfig) (keys : List String) : RuntimeConfig :=
  { rconfig with ignoreKeys := keys.foldl addIgnoreEntry rconfig.ignoreKeys }

/-- `AddIgnoreKey`: the single-key variant. -/
def RuntimeConfig.AddIgnoreKey (rconfig : RuntimeConfig) (key : String) : RuntimeConfig :=
  { rconfig with ignoreKeys := addIgnoreEntry rconfig.ignoreKeys key }

/-- `RemoveIgnoreKey`. -/
def RuntimeConfig.RemoveIgnoreKey (rconfig : RuntimeConfig) (key : String) : RuntimeConfig :=
  { rconfig with ignoreKeys := removeIgnoreEntry rconfig.ignoreKeys key }

/-- `IgnoreKeys` exactly as written in the source: its loop ranges over
`rconfig.data`, not over `rconfig.ignoreKeys`. -/
def RuntimeConfig.IgnoreKeys (rconfig : RuntimeConfig) : List String :=
  mapKeys rconfig.data

/-- `LoadValueFromEnv` with the environment as an injected lookup:
`for key := range data { data[key] = env(key) }`; every key keeps its place,
its value becomes `env key`. -/
def RuntimeConfig.LoadValueFromEnv (rconfig : RuntimeConfig) (env : String → String) :
    RuntimeConfig :=
  { rconfig with data := rconfig.data.map (fun p => (p.1, env p.1)) }

/-- The loop of `ValuesLoaded`: skip ignored keys, return `false` at the
first non-ignored empty value, `true` when the range ends. -/
def valuesLoadedLoop (ig : List (String × Bool)) : List (String × String) → Bool
  | [] => true
  | p :: rest =>
    if mapGet false ig p.1 then valuesLoadedLoop ig rest
    else if p.2 = "" then false
    else valuesLoadedLoop ig rest

/-- `ValuesLoaded`. -/
def RuntimeConfig.ValuesLoaded (rconfig : RuntimeConfig) : Bool :=
  valuesLoadedLoop rconfig.ignoreKeys rconfig.data

/-- The loop of `PrintMissingValues`: skip ignored keys, emit a
`"%s: (not set)"` line for each non-ignored key whose value is empty.  The
result collects the keys of the emitted lines in loop order. -/
def missingValuesLoop (ig : List (String × Bool)) : List (String × String) → List String
  | [] => []
  | p :: rest =>
    if mapGet false ig p.1 then missingValuesLoop ig rest
    else if p.2 = "" then p.1 :: missingValuesLoop ig rest
    else missingValuesLoop ig rest

/-- `PrintMissingValues`, with the printed lines returned as the list of the
keys they report. -/
def RuntimeConfig.PrintMissingValues (rconfig : RuntimeConfig) : List String :=
  missingValuesLoop rconfig.ignoreKeys rconfig.data

/-!
Heap-passing model, used for the copy-independence property.  Go maps are
reference values: a `RuntimeConfig` holds pointers to its two maps, and a
shallow copy of the struct would alias them.  Cells are numbered by `Nat`;
`dataNext`/`ignoreNext` are the next fresh cell numbers, and a store is
valid in a heap when its references are below them. -/

/-- A `RuntimeConfig` as Go sees it: references to its two map cells. -/
structure HeapConfig where
  dataRef : Nat
  ignoreRef : Nat
deriving DecidableEq

/-- The heap: the contents of every `data` cell and every `ignoreKeys`
cell, and the next fresh number of each kind. -/
structure Heap where
  dataCells : Nat → List (String × String)
  ignoreCells : Nat → List (String × Bool)
  dataNext : Nat
  ignoreNext : Nat

/-- Dereference a store's `data` map. -/
def readData (h : Heap) (c : HeapConfig) : List (String × String) :=
  h.dataCells c.dataRef

/-- Dereference a store's `ignoreKeys` map. -/
def readIgnore (h : Heap) (c : HeapConfig) : List (String × Bool) :=
  h.ignoreCells c.ignoreRef

/-- Overwrite the contents of a store's `data` cell. -/
def writeData (h : Heap) (c : HeapConfig) (m : List (String × String)) : Heap :=
  { h with dataCells := fun i => if i = c.dataRef then m else h.dataCells i }

/-- Overwrite the contents of a store's `ignoreKeys` cell. -/
def writeIgnore (h : Heap) (c : HeapConfig) (m : List (String × Bool)) : Heap :=
  { h with ignoreCells := fun i => if i = c.ignoreRef then m else h.ignoreCells i }

/-- `CreateCopy` in the heap model: two fresh cells are allocated (`make`)
and filled with element-wise copies of the source's maps; the new store
references the fresh cells. -/
def heapCreateCopy (h : Heap) (c : HeapConfig) : Heap × HeapConfig :=
  ({ dataCells := fun i => if i = h.dataNext then copyEntries (readData h c) else h.dataCells i,
     ignoreCells :=
       fun i => if i = h.ignoreNext then copyEntries (readIgnore h c) else h.ignoreCells i,
     dataNext := h.dataNext + 1,
     ignoreNext := h.ignoreNext + 1 },
   { dataRef := h.dataNext, ignoreRef := h.ignoreNext })

/-- The mutating operations named by the copy-independence property. -/
inductive HeapOp where
  | setOp (key value : String)
  | deleteOp (key : String)
  | clearDataOp
  | addIgnoreKeysOp (keys : List String)
  | removeIgnoreKeyOp (key : String)
deriving DecidableEq

/-- Run one mutating operation on the store `c` inside heap `h`; each is
the heap form of the corresponding sequential method. -/
def applyHeapOp (h : Heap) (c : HeapConfig) : HeapOp → Heap
  | .setOp key value => writeData h c (mapInsert (readData h c) key value)
  | .deleteOp key => writeData h c (mapErase (readData h c) key)
  | .clearDataOp => writeData h c []
  | .addIgnoreKeysOp keys => writeIgnore h c (keys.foldl addIgnoreEntry (readIgnore h c))
  | .removeIgnoreKeyOp key => writeIgnore h c (removeIgnoreEntry (readIgnore h c) key)

/-! Map-level lemmas. -/

theorem copyEntries_eq {α : Type} (m : List (String × α)) : copyEntries m = m := by
  induction m with
  | nil => rfl
  | cons p rest ih => simp [copyEntries, ih]

theorem mapGet_mapInsert {α : Type} (d v : α) (m : List (String × α)) (k k' : String) :
    mapGet d (mapInsert m k v) k' = if k' = k then v else mapGet d m k' := by
  induction m with
  | nil =>
    rcases eq_or_ne k' k with h | h
    · simp [mapInsert, mapGet, h]
    · simp [mapInsert, mapGet, h, Ne.symm h]
  | cons p rest ih =>
    obtain ⟨a, b⟩ := p
    by_cases ha : a = k
    · subst ha
      rcases eq_or_ne k' a with h | h
      · simp [mapInsert, mapGet, h]
      · simp [mapInsert, mapGet, h, Ne.symm h]
    · rcases eq_or_ne a k' with h | h
      · simp [mapInsert, mapGet, ha, h, h ▸ ha]
      · simp [mapInsert, mapGet, ha, h, ih]

theorem mapGet_eq_default_of_not_mem {α : Type} (d : α) (m : List (String × α)) (k : String)
    (hk : k ∉ mapKeys m) : mapGet d m k = d := by
  induction m with
  | nil => rfl
  | cons p rest ih =>
    simp only [mapKeys, List.map_cons, List.mem_cons, not_or] at hk
    simp [mapGet, Ne.symm hk.1, ih (by simpa [mapKeys] using hk.2)]

theorem mem_mapKeys_mapInsert {α : Type} (v : α) (m : List (String × α)) (k k' : String) :
    k' ∈ mapKeys (mapInsert m k v) ↔ k' = k ∨ k' ∈ mapKeys m := by
  induction m with
  | nil => simp [mapInsert, mapKeys]
  | cons p rest ih =>
    obtain ⟨a, b⟩ := p
    by_cases ha : a = k
    · subst ha
      simp [mapInsert, mapKeys]
    · simp only [mapInsert, ha, if_false, mapKeys, List.map_cons, List.mem_cons]
      rw [mapKeys] at ih
      rw [ih]
      tauto

theorem mapKeys_mapInsert {α : Type} (v : α) (m : List (String × α)) (k : String) :
    mapKeys (mapInsert m k v) =
      if k ∈ mapKeys m then mapKeys m else mapKeys m ++ [k] := by
  induction m with
  | nil => simp [mapInsert, mapKeys]
  | cons p rest ih =>
    obtain ⟨a, b⟩ := p
    by_cases ha : a = k
    · subst ha
      simp [mapInsert, mapKeys]
    · simp only [mapInsert, ha, if_false, mapKeys, List.map_cons, List.mem_cons]
      rw [mapKeys] at ih
      rw [ih]
      by_cases hk : k ∈ mapKeys rest
      · simp only [mapKeys] at hk
        simp [mapKeys, hk, Ne.symm ha]
      · simp only [mapKeys] at hk
        simp [mapKeys, hk, Ne.symm ha]

theorem length_mapInsert {α : Type} (v : α) (m : List (String × α)) (k : String) :
    (mapInsert m k v).length =
      if k ∈ mapKeys m then m.length else m.length + 1 := by
  have hlen : ∀ l : List (String × α), (mapKeys l).length = l.length := by
    intro l; simp [mapKeys]
  have h := congrArg List.length (mapKeys_mapInsert v m k)
  rw [hlen] at h
  by_cases hk : k ∈ mapKeys m
  · simpa [hk, hlen] using h
  · simpa [hk, hlen] using h

theorem nodup_mapKeys_mapInsert {α : Type} (v : α) (m : List (String × α)) (k : String)
    (hm : (mapKeys m).Nodup) : (mapKeys (mapInsert m k v)).Nodup := by
  rw [mapKeys_mapInsert]
  by_cases hk : k ∈ mapKeys m
  · simpa [hk] using hm
  · simp only [hk, if_false]
    exact List.Nodup.append hm (List.nodup_singleton k)
      (by simpa [List.disjoint_singleton] using hk)

theorem not_mem_mapKeys_mapErase {α : Type} (m : List (String × α)) (k : String) :
    k ∉ mapKeys (mapErase m k) := by
  simp only [mapKeys, mapErase, List.mem_map]
  rintro ⟨p, hp, rfl⟩
  have := (List.mem_filter.mp hp).2
  simp at this

theorem mapGet_mapErase_self {α : Type} (d : α) (m : List (String × α)) (k : String) :
    mapGet d (mapErase m k) k = d :=
  mapGet_eq_default_of_not_mem d _ k (not_mem_mapKeys_mapErase m k)

theorem mapErase_of_not_mem {α : Type} (m : List (String × α)) (k : String)
    (hk : k ∉ mapKeys m) : mapErase m k = m := by
  induction m with
  | nil => rfl
  | cons p rest ih =>
    simp only [mapKeys, List.map_cons, List.mem_cons, not_or] at hk
    simp [mapErase, Ne.symm hk.1] at ih ⊢
    exact ih (by simpa [mapKeys] using hk.2)

/-! Loop characterizations. -/

theorem valuesLoadedLoop_eq_true_iff (ig : List (String × Bool)) (l : List (String × String)) :
    valuesLoadedLoop ig l = true ↔ ∀ p ∈ l, mapGet false ig p.1 = true ∨ p.2 ≠ "" := by
  induction l with
  | nil => simp [valuesLoadedLoop]
  | cons p rest ih =>
    obtain ⟨a, b⟩ := p
    simp only [valuesLoadedLoop]
    by_cases hig : mapGet false ig a = true
    · rw [if_pos hig, ih]
      constructor
      · rintro h q hq
        rcases List.mem_cons.mp hq with rfl | hq
        · exact Or.inl hig
        · exact h q hq
      · intro h q hq
        exact h q (List.mem_cons_of_mem _ hq)
    · rw [if_neg hig]
      by_cases hv : b = ""
      · rw [if_pos hv]
        simp only [Bool.false_eq_true, false_iff, not_forall]
        refine ⟨(a, b), List.mem_cons_self _ _, ?_⟩
        simp [hig, hv]
      · rw [if_neg hv, ih]
        constructor
        · rintro h q hq
          rcases List.mem_cons.mp hq with rfl | hq
          · exact Or.inr hv
          · exact h q hq
        · intro h q hq
          exact h q (List.mem_cons_of_mem _ hq)

theorem mem_missingValuesLoop_iff (ig : List (String × Bool)) (l : List (String × String))
    (k : String) :
    k ∈ missingValuesLoop ig l ↔ (k, "") ∈ l ∧ mapGet false ig k = false := by
  induction l with
  | nil => simp [missingValuesLoop]
  | cons p rest ih =>
    obtain ⟨a, b⟩ := p
    simp only [missingValuesLoop]
    by_cases hig : mapGet false ig a = true
    · rw [if_pos hig, ih]
      constructor
      · rintro ⟨hm, hk⟩
        exact ⟨List.mem_cons_of_mem _ hm, hk⟩
      · rintro ⟨hm, hk⟩
        rcases List.mem_cons.mp hm with h | hm
        · obtain ⟨rfl, rfl⟩ : k = a ∧ "" = b := by simpa [Prod.ext_iff] using h
          rw [hig] at hk
          cases hk
        · exact ⟨hm, hk⟩
    · rw [if_neg hig]
      have hfalse : mapGet false ig a = false := by
        simpa using hig
      by_cases hv : b = ""
      · subst hv
        rw [if_pos rfl]
        constructor
        · intro hm
          rcases List.mem_cons.mp hm with rfl | hm
          · exact ⟨List.mem_cons_self _ _, hfalse⟩
          · obtain ⟨hm', hk⟩ := ih.mp hm
            exact ⟨List.mem_cons_of_mem _ hm', hk⟩
        · rintro ⟨hm, hk⟩
          rcases List.mem_cons.mp hm with h | hm
          · obtain ⟨rfl, -⟩ : k = a ∧ ("" : String) = "" := by simpa [Prod.ext_iff] using h
            exact List.mem_cons_self _ _
          · exact List.mem_cons_of_mem _ (ih.mpr ⟨hm, hk⟩)
      · rw [if_neg hv, ih]
        constructor
        · rintro ⟨hm, hk⟩
          exact ⟨List.mem_cons_of_mem _ hm, hk⟩
        · rintro ⟨hm, hk⟩
          rcases List.mem_cons.mp hm with h | hm
          · obtain ⟨-, hb⟩ : k = a ∧ "" = b := by simpa [Prod.ext_iff] using h
            exact absurd hb.symm hv
          · exact ⟨hm, hk⟩

theorem mem_mapKeys_foldl_mapInsert {α : Type} (v : α) (K : List String) :
    ∀ (m : List (String × α)) (k : String),
      k ∈ mapKeys (K.foldl (fun acc key => mapInsert acc key v) m) ↔
        k ∈ K ∨ k ∈ mapKeys m := by
  induction K with
  | nil => simp
  | cons key rest ih =>
    intro m k
    simp only [List.foldl_cons, List.mem_cons]
    rw [ih, mem_mapKeys_mapInsert]
    tauto

theorem nodup_mapKeys_foldl_mapInsert {α : Type} (v : α) (K : List String) :
    ∀ m : List (String × α), (mapKeys m).Nodup →
      (mapKeys (K.foldl (fun acc key => mapInsert acc key v) m)).Nodup := by
  induction K with
  | nil => exact fun m hm => hm
  | cons key rest ih =>
    intro m hm
    exact ih _ (nodup_mapKeys_mapInsert v m key hm)

theorem mapGet_foldl_mapInsert_const {α : Type} (d v : α) (K : List String) :
    ∀ (m : List (String × α)) (k : String),
      mapGet d (K.foldl (fun acc key => mapInsert acc key v) m) k =
        if k ∈ K then v else mapGet d m k := by
  induction K with
  | nil => simp
  | cons key rest ih =>
    intro m k
    simp only [List.foldl_cons, List.mem_cons]
    rw [ih, mapGet_mapInsert]
    by_cases hr : k ∈ rest
    · simp [hr]
    · by_cases hk : k = key
      · simp [hr, hk]
      · simp [hr, hk]

theorem mapGet_map_env (env : String → String) (l : List (String × String)) (k : String)
    (hk : k ∈ mapKeys l) :
    mapGet "" (l.map (fun p => (p.1, env p.1))) k = env k := by
  induction l with
  | nil => simp [mapKeys] at hk
  | cons p rest ih =>
    obtain ⟨a, b⟩ := p
    by_cases ha : a = k
    · subst ha
      simp [mapGet]
    · simp only [mapKeys, List.map_cons, List.mem_cons] at hk
      rcases hk with rfl | hk
      · exact absurd rfl ha
      · simp only [List.map_cons, mapGet, ha, if_false]
        exact ih (by simpa [mapKeys] using hk)

/-! Claim theorems. -/

/-- Claim C1: the source of `IgnoreKeys` contradicts its own documentation
("returns a list of ignoreKeys"): on the store with value map `{"A": ""}`
and ignore set `{"B"}` it returns `["A"]`, the keys of the value map, while
the members of the ignore set are `["B"]`. -/
theorem ignoreKeysReadsDataKeys :
    RuntimeConfig.IgnoreKeys { data := [("A", "")], ignoreKeys := [("B", true)] } = ["A"] ∧
    mapKeys (RuntimeConfig.ignoreKeys
      { data := [("A", "")], ignoreKeys := [("B", true)] }) = ["B"] :=
  ⟨rfl, rfl⟩

/-- Claim C2: `ValuesLoaded` is `true` when `data` is empty, and in general
it is `true` exactly when every entry of `data` whose key is not in the
ignore set has a non-empty value. -/
theorem valuesLoadedIffComplete (rconfig : RuntimeConfig) :
    (rconfig.data = [] → rconfig.ValuesLoaded = true) ∧
    (rconfig.ValuesLoaded = true ↔
      ∀ p ∈ rconfig.data, mapGet false rconfig.ignoreKeys p.1 = true ∨ p.2 ≠ "") := by
  constructor
  · intro hdata
    simp [RuntimeConfig.ValuesLoaded, hdata, valuesLoadedLoop]
  · exact valuesLoadedLoop_eq_true_iff rconfig.ignoreKeys rconfig.data

/-- Claim C3: the keys reported by `PrintMissingValues` are exactly the keys
of `data` whose value is the empty string and that are not in the ignore
set; in particular a key of the ignore set is never reported, even when its
value is empty. -/
theorem missingValuesExactlyEmptyNonIgnored (rconfig : RuntimeConfig) (k : String) :
    k ∈ rconfig.PrintMissingValues ↔
      (k, "") ∈ rconfig.data ∧ mapGet false rconfig.ignoreKeys k = false :=
  mem_missingValuesLoop_iff rconfig.ignoreKeys rconfig.data k

/-- Claim C6: `Get` right after `Set` of the same key returns the value just
set, and `Get` of a key absent from `data` returns the empty string. -/
theorem setThenGetRoundTrip (rconfig : RuntimeConfig) (k v : String) :
    (rconfig.Set k v).Get k = v ∧ (k ∉ mapKeys rconfig.data → rconfig.Get k = "") := by
  constructor
  · simp [RuntimeConfig.Set, RuntimeConfig.Get, mapGet_mapInsert]
  · intro hk
    exact mapGet_eq_default_of_not_mem "" rconfig.data k hk

/-- Claim C7: after `Delete k` the key `k` reads as the empty string and is
not among `Keys`; deleting an absent key leaves the store unchanged (and the
operation signals nothing, being total). -/
theorem deleteRemovesKey (rconfig : RuntimeConfig) (k : String) :
    (rconfig.Delete k).Get k = "" ∧ k ∉ (rconfig.Delete k).Keys ∧
      (k ∉ rconfig.Keys → rconfig.Delete k = rconfig) := by
  refine ⟨mapGet_mapErase_self "" rconfig.data k, not_mem_mapKeys_mapErase rconfig.data k, ?_⟩
  intro hk
  have herase : mapErase rconfig.data k = rconfig.data :=
    mapErase_of_not_mem rconfig.data k (by simpa [RuntimeConfig.Keys] using hk)
  unfold RuntimeConfig.Delete
  rw [herase]

/-- Claim C8: `NewRuntimeConfig` maps every default key (and nothing else)
to the empty string, with duplicates collapsed so that `Size` is the number
of distinct default keys, and its ignore set holds exactly the ignore keys. -/
theorem newRuntimeConfigShape (defaultKeys ignoreKeys : List String) :
    (∀ k, mapGet "" (NewRuntimeConfig defaultKeys ignoreKeys).data k = "") ∧
    (∀ k, k ∈ (NewRuntimeConfig defaultKeys ignoreKeys).Keys ↔ k ∈ defaultKeys) ∧
    (NewRuntimeConfig defaultKeys ignoreKeys).Size = defaultKeys.toFinset.card ∧
    (∀ k, mapGet false (NewRuntimeConfig defaultKeys ignoreKeys).ignoreKeys k = true ↔
      k ∈ ignoreKeys) := by
  refine ⟨?_, ?_, ?_, ?_⟩
  · intro k
    rw [show (NewRuntimeConfig defaultKeys ignoreKeys).data =
        defaultKeys.foldl (fun acc key => mapInsert acc key mKeyDefaultValue) [] from rfl,
      mapGet_foldl_mapInsert_const]
    by_cases hk : k ∈ defaultKeys
    · simp [hk, mKeyDefaultValue]
    · simp [hk, mapGet]
  · intro k
    rw [show (NewRuntimeConfig defaultKeys ignoreKeys).Keys =
        mapKeys (defaultKeys.foldl (fun acc key => mapInsert acc key mKeyDefaultValue) [])
        from rfl,
      mem_mapKeys_foldl_mapInsert]
    simp [mapKeys]
  · have hkeys : ∀ k, k ∈ mapKeys ((NewRuntimeConfig defaultKeys ignoreKeys).data) ↔
        k ∈ defaultKeys := by
      intro k
      rw [show (NewRuntimeConfig defaultKeys ignoreKeys).data =
          defaultKeys.foldl (fun acc key => mapInsert acc key mKeyDefaultValue) [] from rfl,
        mem_mapKeys_foldl_mapInsert]
      simp [mapKeys]
    have hnd : (mapKeys ((NewRuntimeConfig defaultKeys ignoreKeys).data)).Nodup :=
      nodup_mapKeys_foldl_mapInsert mKeyDefaultValue defaultKeys [] (by simp [mapKeys])
    have hfin : (mapKeys ((NewRuntimeConfig defaultKeys ignoreKeys).data)).toFinset =
        defaultKeys.toFinset := by
      ext k
      simp [List.mem_toFinset, hkeys k]
    have hlen : (mapKeys ((NewRuntimeConfig defaultKeys ignoreKeys).data)).length =
        ((NewRuntimeConfig defaultKeys ignoreKeys).data).length := by
      simp [mapKeys]
    calc (NewRuntimeConfig defaultKeys ignoreKeys).Size
        = (mapKeys ((NewRuntimeConfig defaultKeys ignoreKeys).data)).length := hlen.symm
      _ = (mapKeys ((NewRuntimeConfig defaultKeys ignoreKeys).data)).toFinset.card :=
          (List.toFinset_card_of_nodup hnd).symm
      _ = defaultKeys.toFinset.card := by rw [hfin]
  · intro k
    rw [show (NewRuntimeConfig defaultKeys ignoreKeys).ignoreKeys =
        ignoreKeys.foldl (fun acc key => mapInsert acc key true) [] from rfl,
      mapGet_foldl_mapInsert_const]
    by_cases hk : k ∈ ignoreKeys
    · simp [hk]
    · simp [hk, mapGet]

/-- Claim C10: `LoadValueFromEnv` neither adds nor removes keys: the key
list returned by `Keys` and the count returned by `Size` are unchanged by
the load. -/
theorem loadValueFromEnvKeepsKeys (rconfig : RuntimeConfig) (env : String → String) :
    (rconfig.LoadValueFromEnv env).Keys = rconfig.Keys ∧
      (rconfig.LoadValueFromEnv env).Size = rconfig.Size := by
  constructor
  · simp [RuntimeConfig.LoadValueFromEnv, RuntimeConfig.Keys, mapKeys, List.map_map,
      Function.comp]
  · simp [RuntimeConfig.LoadValueFromEnv, RuntimeConfig.Size]

/-- Claim C5: after `LoadValueFromEnv` with lookup `env`, every key that was
in `data` reads back as `env` applied to it. -/
theorem loadValueFromEnvGetsEnv (rconfig : RuntimeConfig) (env : String → String)
    (k : String) (hk : k ∈ rconfig.Keys) :
    (rconfig.LoadValueFromEnv env).Get k = env k :=
  mapGet_map_env env rconfig.data k (by simpa [RuntimeConfig.Keys] using hk)

/-- The injected lookup of the load scenario: only `HOST` is set. -/
def envHostLookup : String → String :=
  fun name => if name = "HOST" then "db.local" else ""

/-- Claim C5, witness: the spec scenario with keys `HOST`, `PORT` and the
lookup that only sets `HOST`. -/
theorem loadValueFromEnvGetsEnvScenario :
    ((NewRuntimeConfig ["HOST", "PORT"] []).LoadValueFromEnv envHostLookup).Get "HOST" =
        "db.local" ∧
      ((NewRuntimeConfig ["HOST", "PORT"] []).LoadValueFromEnv envHostLookup).Get "PORT" =
        "" :=
  ⟨(loadValueFromEnvGetsEnv (NewRuntimeConfig ["HOST", "PORT"] []) envHostLookup "HOST"
      (by decide)).trans (by decide),
    (loadValueFromEnvGetsEnv (NewRuntimeConfig ["HOST", "PORT"] []) envHostLookup "PORT"
      (by decide)).trans (by decide)⟩

/-- Claim C4: `CreateCopy` returns a store whose two maps read element-wise
equal to the source maps, the copy lives in fresh cells, and afterwards any
`Set`, `Delete`, `ClearData`, `AddIgnoreKeys` or `RemoveIgnoreKey` applied
to one of the two stores leaves both maps of the other store unchanged. -/
theorem createCopyIndependent (h : Heap) (c : HeapConfig)
    (hd : c.dataRef < h.dataNext) (hi : c.ignoreRef < h.ignoreNext) :
    readData (heapCreateCopy h c).1 (heapCreateCopy h c).2 = readData h c ∧
    readIgnore (heapCreateCopy h c).1 (heapCreateCopy h c).2 = readIgnore h c ∧
    readData (heapCreateCopy h c).1 c = readData h c ∧
    readIgnore (heapCreateCopy h c).1 c = readIgnore h c ∧
    (∀ op : HeapOp,
      readData (applyHeapOp (heapCreateCopy h c).1 (heapCreateCopy h c).2 op) c =
          readData h c ∧
        readIgnore (applyHeapOp (heapCreateCopy h c).1 (heapCreateCopy h c).2 op) c =
          readIgnore h c) ∧
    (∀ op : HeapOp,
      readData (applyHeapOp (heapCreateCopy h c).1 c op) (heapCreateCopy h c).2 =
          readData h c ∧
        readIgnore (applyHeapOp (heapCreateCopy h c).1 c op) (heapCreateCopy h c).2 =
          readIgnore h c) := by
  have hdne : c.dataRef ≠ h.dataNext := Nat.ne_of_lt hd
  have hine : c.ignoreRef ≠ h.ignoreNext := Nat.ne_of_lt hi
  refine ⟨?_, ?_, ?_, ?_, ?_, ?_⟩
  · simp [heapCreateCopy, readData, copyEntries_eq]
  · simp [heapCreateCopy, readIgnore, copyEntries_eq]
  · simp [heapCreateCopy, readData, hdne]
  · simp [heapCreateCopy, readIgnore, hine]
  · intro op
    cases op <;>
      simp [applyHeapOp, writeData, writeIgnore, readData, readIgnore, heapCreateCopy,
        hdne, hine]
  · intro op
    cases op <;>
      simp [applyHeapOp, writeData, writeIgnore, readData, readIgnore, heapCreateCopy,
        hdne, hine, Ne.symm hdne, Ne.symm hine, copyEntries_eq]

/-- A one-cell heap holding the store of the copy scenario. -/
def heapScenario : Heap :=
  { dataCells := fun _ => [("A", "1")],
    ignoreCells := fun _ => [("B", true)],
    dataNext := 1,
    ignoreNext := 1 }

/-- The store reference of the copy scenario. -/
def configScenario : HeapConfig :=
  { dataRef := 0, ignoreRef := 0 }

/-- Claim C4, witness: in the one-cell heap, a `Set` run on the copy leaves
the original store reading its old map. -/
theorem createCopyIndependentScenario :
    readData
        (applyHeapOp (heapCreateCopy heapScenario configScenario).1
          (heapCreateCopy heapScenario configScenario).2 (HeapOp.setOp "A" "2"))
        configScenario =
      readData heapScenario configScenario :=
  ((createCopyIndependent heapScenario configScenario (by decide) (by decide)).2.2.2.2.1
    (HeapOp.setOp "A" "2")).1
